import Mathlib

/-!
Verification development for the ssh-mcp-server repository (src/index.ts).
The source is shallowly embedded: strings are lists of characters, the
JavaScript Map holding the host registry is an association list with
insert-or-replace semantics, the recursive config parser (parseSSHConfig
and handleInclude) is a fuel-indexed frame machine, base64 encoding and
the remote pipeline construction are executable functions, and the
process timeout logic is an explicit event machine.
-/

/-- Strings of the modelled program: lists of characters. -/
abbrev Str := List Char

def nlCh : Char := Char.ofNat 10

def squote : Char := Char.ofNat 39

def dquote : Char := Char.ofNat 34

/-- JS String.prototype.trim on a line: drop whitespace at both ends. -/
def trimL (l : Str) : Str :=
  ((l.dropWhile Char.isWhitespace).reverse.dropWhile Char.isWhitespace).reverse

/-- ASCII lower-casing of one character, as toLowerCase acts on config keys. -/
def lowerCh (c : Char) : Char :=
  if 65 ≤ c.toNat ∧ c.toNat ≤ 90 then Char.ofNat (c.toNat + 32) else c

def lowerStr (l : Str) : Str := l.map lowerCh

/-- Prefix test: startsWithL pat s is true when pat is a prefix of s. -/
def startsWithL : Str → Str → Bool
  | [], _ => true
  | _ :: _, [] => false
  | a :: as, b :: bs => a = b && startsWithL as bs

/-- Accumulator-based splitter for String.split with a whitespace run
pattern, producing the nonempty tokens of a line. -/
def splitWSGo : Str → Str → List Str
  | [], w => if w = [] then [] else [w.reverse]
  | c :: cs, w =>
    if c.isWhitespace then
      if w = [] then splitWSGo cs [] else w.reverse :: splitWSGo cs []
    else splitWSGo cs (c :: w)

def splitWS (l : Str) : List Str := splitWSGo l []

/-- join with a single space, as valueParts.join does in the source. -/
def joinSp : List Str → Str
  | [] => []
  | [t] => t
  | t :: ts => t ++ ' ' :: joinSp ts

/-- Accumulator-based splitter for content.split on the newline character. -/
def splitLinesGo : Str → Str → List Str
  | [], cur => [cur.reverse]
  | c :: cs, cur =>
    if c = nlCh then cur.reverse :: splitLinesGo cs [] else splitLinesGo cs (c :: cur)

def splitLines (content : Str) : List Str := splitLinesGo content []

/-- Replace the first occurrence of pat in s by rep, as the JS
String.prototype.replace with a plain string pattern does. -/
def replaceFirst : Str → Str → Str → Str
  | s, pat, rep =>
    if startsWithL pat s then rep ++ s.drop pat.length
    else match s with
      | [] => []
      | c :: cs => c :: replaceFirst cs pat rep

/-- Path segments: split on the slash, dropping empty and dot segments,
mirroring the normalisation done by path.join. -/
def splitSegsGo : Str → Str → List Str
  | [], cur =>
    if cur = [] ∨ cur.reverse = ['.'] then [] else [cur.reverse]
  | c :: cs, cur =>
    if c = '/' then
      (if cur = [] ∨ cur.reverse = ['.'] then [] else [cur.reverse]) ++ splitSegsGo cs []
    else splitSegsGo cs (c :: cur)

def splitSegs (p : Str) : List Str := splitSegsGo p []

/-- Collapse parent-directory segments as path.join normalisation does. -/
def collapseDots (acc : List Str) : List Str → List Str
  | [] => acc
  | s :: rest =>
    if s = ['.', '.'] then collapseDots acc.dropLast rest
    else collapseDots (acc ++ [s]) rest

def joinSegs : List Str → Str
  | [] => []
  | [s] => s
  | s :: ss => s ++ '/' :: joinSegs ss

/-- node path.join on two paths, normalising dot and dot-dot segments. -/
def pathJoin (a b : Str) : Str :=
  (if startsWithL ['/'] a then ['/'] else []) ++
    joinSegs (collapseDots [] (splitSegs a ++ splitSegs b))

/-- JS parseInt with no radix argument: skip leading whitespace, optional
sign, hex with a 0x prefix, otherwise the longest leading run of decimal
digits; none models the NaN result when no digit is found. -/
def decDigits (l : Str) : Nat :=
  l.foldl (fun a c => a * 10 + (c.toNat - 48)) 0

def hexDigitVal (c : Char) : Nat :=
  if 48 ≤ c.toNat ∧ c.toNat ≤ 57 then c.toNat - 48
  else if 97 ≤ (lowerCh c).toNat ∧ (lowerCh c).toNat ≤ 102 then (lowerCh c).toNat - 87
  else 0

def isHexDigit (c : Char) : Bool :=
  (48 ≤ c.toNat ∧ c.toNat ≤ 57) ∨ (65 ≤ c.toNat ∧ c.toNat ≤ 70) ∨ (97 ≤ c.toNat ∧ c.toNat ≤ 102)

def parseIntJS (s : Str) : Option Int :=
  let s1 := s.dropWhile Char.isWhitespace
  let signed : Int × Str :=
    match s1 with
    | '-' :: t => (-1, t)
    | '+' :: t => (1, t)
    | t => (1, t)
  match signed.2 with
  | '0' :: x :: t =>
    if x = 'x' ∨ x = 'X' then
      let ds := t.takeWhile isHexDigit
      if ds = [] then none
      else some (signed.1 * Int.ofNat (ds.foldl (fun a c => a * 16 + hexDigitVal c) 0))
    else
      let ds := (('0' :: x :: t).takeWhile Char.isDigit)
      some (signed.1 * Int.ofNat (decDigits ds))
  | rest =>
    let ds := rest.takeWhile Char.isDigit
    if ds = [] then none else some (signed.1 * Int.ofNat (decDigits ds))

/-- One entry of the host registry, mirroring the SSHHost interface.
The port field distinguishes a never-assigned field (outer none) from a
field assigned the NaN produced by parseInt on a non-numeric value
(inner none), since a JS object distinguishes a missing property from a
property holding NaN. extra models the index-signature property bag. -/
structure SSHHost where
  host : Str
  hostname : Option Str := none
  user : Option Str := none
  port : Option (Option Int) := none
  identityFile : Option Str := none
  proxyJump : Option Str := none
  extra : List (Str × Str) := []
deriving DecidableEq

/-- The sshHosts JS Map: association list, insertion order preserved. -/
abbrev Registry := List (Str × SSHHost)

/-- Map.prototype.set: replace in place when the key exists, else append. -/
def setReg : Registry → Str → SSHHost → Registry
  | [], k, v => [(k, v)]
  | (k0, v0) :: rest, k, v =>
    if k0 = k then (k, v) :: rest else (k0, v0) :: setReg rest k v

/-- Map.prototype.get. -/
def lookupReg : Registry → Str → Option SSHHost
  | [], _ => none
  | (k0, v0) :: rest, k => if k0 = k then some v0 else lookupReg rest k

/-- Committing the in-progress host, as the guarded sshHosts.set call. -/
def commit : Option SSHHost → Registry → Registry
  | none, reg => reg
  | some h, reg => setReg reg h.host h

/-- Object property assignment for the dynamic bag. -/
def setAssoc : List (Str × Str) → Str → Str → List (Str × Str)
  | [], k, v => [(k, v)]
  | (k0, v0) :: rest, k, v =>
    if k0 = k then (k, v) :: rest else (k0, v0) :: setAssoc rest k v

/-- The switch over the lower-cased key in parseSSHConfig. -/
def setProp (h : SSHHost) (lowerKey value home : Str) : SSHHost :=
  if lowerKey = (r"hostname").toList then { h with hostname := some value }
  else if lowerKey = (r"user").toList then { h with user := some value }
  else if lowerKey = (r"port").toList then { h with port := some (parseIntJS value) }
  else if lowerKey = (r"identityfile").toList then
    { h with identityFile := some (replaceFirst value ['~'] home) }
  else if lowerKey = (r"proxyjump").toList then { h with proxyJump := some value }
  else { h with extra := setAssoc h.extra lowerKey value }

/-- Environment of a parse: the readable files, the glob matcher and the
home directory, abstracting fs.readFile, the glob package and os.homedir. -/
structure Ctx where
  fs : Str → Option Str
  glob : Str → List Str
  home : Str

/-- What the line loop of parseSSHConfig does with one trimmed line. -/
inductive LineAction where
  | skip
  | incl (path : Str)
  | host (value : Str)
  | prop (lowerKey value : Str)
deriving DecidableEq

/-- Classification of one raw line, following the source order: trim,
skip blank and comment lines, detect the case-insensitive Include
directive, otherwise split into key and space-joined value; a Host key
always starts a record while any other key is a property only when a
current host exists and the value is nonempty (checked by the caller
and here respectively). -/
def classifyLine (l : Str) : LineAction :=
  let line := trimL l
  if line = [] then .skip
  else if line.head? = some '#' then .skip
  else if startsWithL (r"include ").toList (lowerStr line) then
    .incl (trimL (line.drop 8))
  else
    match splitWS line with
    | [] => .skip
    | key :: vals =>
      let value := joinSp vals
      if lowerStr key = (r"host").toList then .host value
      else if value = [] then .skip
      else .prop (lowerStr key) value

/-- Path resolution in handleInclude: an include path not starting with
a slash is joined below the directory of the including file, then the
first tilde is replaced by the home directory. -/
def resolveInclude (home base p : Str) : Str :=
  replaceFirst (if startsWithL ['/'] p then p else pathJoin (pathJoin base ['.', '.']) p)
    ['~'] home

/-- Work items of the parse: a document in progress with its remaining
lines, its base path and its in-progress host, or a file still to be
read, as produced by include handling. -/
inductive Frame where
  | doc (lines : List Str) (base : Str) (cur : Option SSHHost)
  | file (path : Str)

/-- The recursive parse of parseSSHConfig and handleInclude as a
fuel-indexed machine over a stack of frames. Fuel is a step budget (the
source has no such bound; it is the totality device of the embedding and
every terminating run is reproduced by a large enough budget). A file
frame reads its path, skipping silently when unreadable; a finished
document commits its in-progress host; an Include line pushes either the
glob matches as file frames or a single file frame, resolved against the
including file; the included documents therefore run before the
remaining lines of the includer, whose in-progress host survives them. -/
def run (ctx : Ctx) : Nat → List Frame → Registry → Option Registry
  | 0, _, _ => none
  | _ + 1, [], reg => some reg
  | n + 1, Frame.file p :: stk, reg =>
    (match ctx.fs p with
     | some content => run ctx n (Frame.doc (splitLines content) p none :: stk) reg
     | none => run ctx n stk reg)
  | n + 1, Frame.doc [] _ cur :: stk, reg => run ctx n stk (commit cur reg)
  | n + 1, Frame.doc (l :: ls) base cur :: stk, reg =>
    (match classifyLine l with
     | .skip => run ctx n (Frame.doc ls base cur :: stk) reg
     | .host v => run ctx n (Frame.doc ls base (some { host := v }) :: stk) (commit cur reg)
     | .prop k v =>
       run ctx n (Frame.doc ls base (cur.map fun h => setProp h k v ctx.home) :: stk) reg
     | .incl p =>
       let full := resolveInclude ctx.home base p
       if full.contains '*' then
         run ctx n ((ctx.glob full).map Frame.file ++ Frame.doc ls base cur :: stk) reg
       else
         (match ctx.fs full with
          | some content =>
            run ctx n (Frame.doc (splitLines content) full none :: Frame.doc ls base cur :: stk) reg
          | none => run ctx n (Frame.doc ls base cur :: stk) reg))

/-- parseSSHConfig on one document text with a given base path. -/
def parseCfg (ctx : Ctx) (fuel : Nat) (content : Str) (basePath : Str)
    (reg : Registry) : Option Registry :=
  run ctx fuel [Frame.doc (splitLines content) basePath none] reg

/-- Registry lookup through an Option-valued parse result. -/
def lookupAfter (o : Option Registry) (alias0 : Str) : Option SSHHost :=
  o.bind fun reg => lookupReg reg alias0

/-- The base64 alphabet, by index below 64: capital letters, small
letters, digits, plus, slash. -/
def sixAux (m : Nat) : Char :=
  if m < 26 then Char.ofNat (65 + m)
  else if m < 52 then Char.ofNat (71 + m)
  else if m < 62 then Char.ofNat (m - 4)
  else if m = 62 then Char.ofNat 43
  else Char.ofNat 47

def sixToChar (n : Nat) : Char := sixAux (n % 64)

def padChar : Char := Char.ofNat 61

/-- Buffer.prototype.toString with base64: standard padding encoder over
byte lists. -/
def b64encode : List Nat → List Char
  | [] => []
  | [b1] => [sixToChar (b1 / 4), sixToChar (b1 % 4 * 16), padChar, padChar]
  | [b1, b2] =>
    [sixToChar (b1 / 4), sixToChar (b1 % 4 * 16 + b2 / 16), sixToChar (b2 % 16 * 4), padChar]
  | b1 :: b2 :: b3 :: rest =>
    sixToChar (b1 / 4) :: sixToChar (b1 % 4 * 16 + b2 / 16) ::
      sixToChar (b2 % 16 * 4 + b3 / 64) :: sixToChar (b3 % 64) :: b64encode rest

def charToSix (c : Char) : Nat :=
  if 65 ≤ c.toNat ∧ c.toNat ≤ 90 then c.toNat - 65
  else if 97 ≤ c.toNat ∧ c.toNat ≤ 122 then c.toNat - 71
  else if 48 ≤ c.toNat ∧ c.toNat ≤ 57 then c.toNat + 4
  else if c.toNat = 43 then 62
  else if c.toNat = 47 then 63
  else 0

/-- The remote decoding step of the fixed pipeline (base64 -d) on
well-formed padded input, quartet by quartet. -/
def b64decode : List Char → List Nat
  | c1 :: c2 :: c3 :: c4 :: rest =>
    let a := charToSix c1
    let b := charToSix c2
    if c3 = padChar then [a * 4 + b / 16]
    else
      let c := charToSix c3
      if c4 = padChar then [a * 4 + b / 16, b % 16 * 16 + c / 4]
      else (a * 4 + b / 16) :: (b % 16 * 16 + c / 4) ::
        (c % 4 * 64 + charToSix c4) :: b64decode rest
  | _ => []

/-- UTF-8 bytes of one code point, as Buffer.from produces for a JS
string. -/
def utf8Char (c : Char) : List Nat :=
  let n := c.toNat
  if n < 128 then [n]
  else if n < 2048 then [192 + n / 64, 128 + n % 64]
  else if n < 65536 then [224 + n / 4096, 128 + n / 64 % 64, 128 + n % 64]
  else [240 + n / 262144, 128 + n / 4096 % 64, 128 + n / 64 % 64, 128 + n % 64]

def utf8Str : Str → List Nat
  | [] => []
  | c :: cs => utf8Char c ++ utf8Str cs

/-- Membership in the base64 output alphabet including padding. -/
def isB64Char (c : Char) : Bool :=
  (65 ≤ c.toNat ∧ c.toNat ≤ 90) ∨ (97 ≤ c.toNat ∧ c.toNat ≤ 122) ∨
    (48 ≤ c.toNat ∧ c.toNat ≤ 57) ∨ c.toNat = 43 ∨ c.toNat = 47 ∨ c.toNat = 61

/-- Error codes of the protocol as the source uses them. -/
inductive ErrCode where
  | invalidRequest
  | methodNotFound
  | internalError
deriving DecidableEq

structure McpErr where
  code : ErrCode
  msg : Str
deriving DecidableEq

def hostNotFound (host : Str) : McpErr :=
  ⟨.invalidRequest,
    (r"Host ").toList ++ squote :: host ++ squote :: (r" not found in SSH config").toList⟩

/-- The single child-process launch of a call: executable plus argument
vector, as passed to spawn without an intermediate local shell. -/
structure SpawnCall where
  cmd : Str
  args : List Str
deriving DecidableEq

/-- The fixed remote pipeline wrapping an encoded payload: echo of the
ASCII-safe form, single quoted, piped through the base64 decoder into
the interpreter. -/
def encodedPipeline (payload : Str) (interp : Str) : Str :=
  (r"echo ").toList ++ squote :: b64encode (utf8Str payload) ++ squote ::
    (r" | base64 -d | ").toList ++ interp

/-- executeCommand up to its process launch: registry check, then the
ssh invocation with the plain or encoded command line. -/
def executeCommandSpawn (reg : Registry) (host command : Str) (useBase64 : Bool) :
    Except McpErr SpawnCall :=
  match lookupReg reg host with
  | none => .error (hostNotFound host)
  | some _ =>
    .ok ⟨(r"ssh").toList,
      [host, if useBase64 then encodedPipeline command (r"bash").toList else command]⟩

/-- executeScript up to its process launch: scripts are always encoded,
with the caller-chosen interpreter. -/
def executeScriptSpawn (reg : Registry) (host script interp : Str) :
    Except McpErr SpawnCall :=
  match lookupReg reg host with
  | none => .error (hostNotFound host)
  | some _ => .ok ⟨(r"ssh").toList, [host, encodedPipeline script interp]⟩

/-- getHostInfo: registry check, then the full record. -/
def getHostInfoModel (reg : Registry) (host : Str) : Except McpErr SSHHost :=
  match lookupReg reg host with
  | none => .error (hostNotFound host)
  | some h => .ok h

/-- uploadFile up to its process launch: registry check, then the scp
command line handed to exec. -/
def uploadFileCmd (reg : Registry) (host localPath remotePath : Str) :
    Except McpErr Str :=
  match lookupReg reg host with
  | none => .error (hostNotFound host)
  | some _ =>
    .ok ((r"scp ").toList ++ dquote :: localPath ++ dquote :: ' ' :: dquote ::
      host ++ ':' :: remotePath ++ [dquote])

/-- downloadFile up to its process launch. -/
def downloadFileCmd (reg : Registry) (host remotePath localPath : Str) :
    Except McpErr Str :=
  match lookupReg reg host with
  | none => .error (hostNotFound host)
  | some _ =>
    .ok ((r"scp ").toList ++ dquote :: host ++ ':' :: remotePath ++ dquote ::
      ' ' :: dquote :: localPath ++ [dquote])

/-- Decimal rendering used for interpolated numbers in messages; the
first argument is a digit-count budget always satisfied by n itself. -/
def natToStrGo : Nat → Nat → Str
  | 0, _ => []
  | fuel + 1, n =>
    if n < 10 then [Char.ofNat (48 + n)]
    else natToStrGo fuel (n / 10) ++ [Char.ofNat (48 + n % 10)]

def natToStr (n : Nat) : Str := natToStrGo (n + 1) n

/-- The JSON payload of a finished command execution, as assembled in
the close handler: the annotated command, the exit code (absent when the
child was ended by a signal), trimmed output streams, the success flag
compared against exit code zero, and the encoding marker. -/
structure CmdResult where
  host : Str
  command : Str
  exitCode : Option Int
  stdout : Str
  stderr : Str
  success : Bool
  encoding : Str
deriving DecidableEq

def commandCloseResult (host command : Str) (useBase64 : Bool) (code : Option Int)
    (stdout stderr : Str) : CmdResult :=
  ⟨host,
   if useBase64 then (r"[Base64 Encoded] ").toList ++ command else command,
   code, trimL stdout, trimL stderr,
   (match code with | some z => z = 0 | none => false),
   if useBase64 then (r"base64").toList else (r"plain").toList⟩

/-- The JSON payload of a finished script execution: truncated preview
of the first three lines, interpreter, exit data and the line count. -/
structure ScriptResult where
  host : Str
  script : Str
  interp : Str
  exitCode : Option Int
  stdout : Str
  stderr : Str
  success : Bool
  encoding : Str
  lineCount : Nat
deriving DecidableEq

def scriptPreview (script : Str) : Str :=
  joinNl ((splitLines script).take 3) ++
    (if 3 < (splitLines script).length then nlCh :: (r"...").toList else [])
where
  joinNl : List Str → Str
    | [] => []
    | [s] => s
    | s :: ss => s ++ nlCh :: joinNl ss

def scriptCloseResult (host script interp : Str) (code : Option Int)
    (stdout stderr : Str) : ScriptResult :=
  ⟨host, scriptPreview script, interp, code, trimL stdout, trimL stderr,
   (match code with | some z => z = 0 | none => false),
   (r"base64").toList, (splitLines script).length⟩

def timeoutErr (kind : Str) (timeout : Nat) : McpErr :=
  ⟨.internalError,
    kind ++ (r" timed out after ").toList ++ natToStr timeout ++ (r" seconds").toList⟩

def spawnFailErr (kind m : Str) : McpErr :=
  ⟨.internalError, kind ++ (r" failed: ").toList ++ m⟩

/-- The events a pending execution can observe: the close event of the
child with its exit code and accumulated streams, the firing of the
armed timer, or a spawn error. -/
inductive PEvent where
  | close (code : Option Int) (stdout stderr : Str)
  | fire
  | spawnErr (m : Str)

deriving instance DecidableEq for Except

/-- State of one executeCommand promise: whether clearTimeout has run,
whether the termination signal was sent, and the settled value if any
(a promise keeps its first settlement). -/
structure TState where
  cleared : Bool
  killed : Bool
  settled : Option (Except McpErr CmdResult)
deriving DecidableEq

def someFirst (o : Option (Except McpErr CmdResult)) (v : Except McpErr CmdResult) :
    Option (Except McpErr CmdResult) :=
  match o with
  | some x => some x
  | none => some v

/-- The three handlers installed by executeCommand: close clears the
timer then resolves; the timer callback, which the runtime only runs
while the timer is not cleared, kills the child and rejects with the
timeout error; the error handler clears the timer and rejects. -/
def stepEvent (host command : Str) (useBase64 : Bool) (timeout : Nat)
    (s : TState) : PEvent → TState
  | .close code so se =>
    ⟨true, s.killed,
     someFirst s.settled (.ok (commandCloseResult host command useBase64 code so se))⟩
  | .fire =>
    if s.cleared then s
    else ⟨s.cleared, true, someFirst s.settled (.error (timeoutErr (r"Command").toList timeout))⟩
  | .spawnErr m =>
    ⟨true, s.killed, someFirst s.settled (.error (spawnFailErr (r"SSH execution").toList m))⟩

def runEvents (host command : Str) (useBase64 : Bool) (timeout : Nat)
    (s : TState) : List PEvent → TState
  | [] => s
  | e :: es => runEvents host command useBase64 timeout
      (stepEvent host command useBase64 timeout s e) es

def initTState : TState := ⟨false, false, none⟩

/-- Outcome of one exec invocation for a file transfer: the command
exited with a code, or could not be run at all. -/
inductive ExecOutcome where
  | exited (code : Int) (stdout stderr : Str)
  | spawnFailed (m : Str)

structure TransferResult where
  host : Str
  localPath : Str
  remotePath : Str
  success : Bool
  message : Str
  stdout : Str
  stderr : Str
deriving DecidableEq

/-- The exec callback of uploadFile. Node invokes the callback with a
non-null error both when the command cannot be run and when it exits
nonzero, and the source rejects in exactly that case; the error message
text is modelled by a fixed marker for the nonzero-exit case. -/
def uploadFileSettle (host localPath remotePath : Str) :
    ExecOutcome → Except McpErr TransferResult
  | .spawnFailed m => .error ⟨.internalError, (r"SCP upload failed: ").toList ++ m⟩
  | .exited code so se =>
    if code = 0 then
      .ok ⟨host, localPath, remotePath, true, (r"File uploaded successfully").toList,
        trimL so, trimL se⟩
    else .error ⟨.internalError,
      (r"SCP upload failed: ").toList ++ (r"Command failed").toList⟩

/-- The exec callback of downloadFile, mirrored. -/
def downloadFileSettle (host remotePath localPath : Str) :
    ExecOutcome → Except McpErr TransferResult
  | .spawnFailed m => .error ⟨.internalError, (r"SCP download failed: ").toList ++ m⟩
  | .exited code so se =>
    if code = 0 then
      .ok ⟨host, localPath, remotePath, true, (r"File downloaded successfully").toList,
        trimL so, trimL se⟩
    else .error ⟨.internalError,
      (r"SCP download failed: ").toList ++ (r"Command failed").toList⟩

/-- The presentation default of listHosts for the port: a stored falsy
port (absent, NaN, or zero) reports 22. -/
def effectivePort (p : Option (Option Int)) : Int :=
  match p with
  | some (some n) => if n = 0 then 22 else n
  | _ => 22

/-- The presentation default of listHosts for the hostname: a stored
falsy hostname (absent or empty) reports the alias. -/
def effectiveHostname (h : Option Str) (alias0 : Str) : Str :=
  match h with
  | some s => if s = [] then alias0 else s
  | none => alias0

/-- One row of the listHosts response. -/
structure HostRow where
  alias0 : Str
  hostname : Str
  user : Option Str
  port : Int
deriving DecidableEq

def listHostsModel (reg : Registry) : List HostRow :=
  reg.map fun e => ⟨e.1, effectiveHostname e.2.hostname e.1, e.2.user, effectivePort e.2.port⟩

/-- Script execution settlement on one event, as executeScript installs
the same three handlers with its own result and messages. -/
def executeScriptSettle (host script interp : Str) (timeout : Nat) :
    PEvent → Except McpErr ScriptResult
  | .close code so se => .ok (scriptCloseResult host script interp code so se)
  | .fire => .error (timeoutErr (r"Script").toList timeout)
  | .spawnErr m => .error (spawnFailErr (r"SSH script execution").toList m)

/-- Modelled from the spec: the include handling prescribed in the
design notes and ParseContext, which the source lacks — a set of
already-visited absolute file paths threaded through the parse call
tree; a file whose resolved path is already in the set is skipped
instead of parsed again. Includes push file frames whose opening
records the path. -/
def runV (ctx : Ctx) : Nat → List Frame → List Str → Registry → Option Registry
  | 0, _, _, _ => none
  | _ + 1, [], _, reg => some reg
  | n + 1, Frame.file p :: stk, visited, reg =>
    if p ∈ visited then runV ctx n stk visited reg
    else
      (match ctx.fs p with
       | some content =>
         runV ctx n (Frame.doc (splitLines content) p none :: stk) (p :: visited) reg
       | none => runV ctx n stk visited reg)
  | n + 1, Frame.doc [] _ cur :: stk, visited, reg => runV ctx n stk visited (commit cur reg)
  | n + 1, Frame.doc (l :: ls) base cur :: stk, visited, reg =>
    (match classifyLine l with
     | .skip => runV ctx n (Frame.doc ls base cur :: stk) visited reg
     | .host v =>
       runV ctx n (Frame.doc ls base (some { host := v }) :: stk) visited (commit cur reg)
     | .prop k v =>
       runV ctx n (Frame.doc ls base (cur.map fun h => setProp h k v ctx.home) :: stk) visited reg
     | .incl p =>
       let full := resolveInclude ctx.home base p
       if full.contains '*' then
         runV ctx n ((ctx.glob full).map Frame.file ++ Frame.doc ls base cur :: stk) visited reg
       else runV ctx n (Frame.file full :: Frame.doc ls base cur :: stk) visited reg)

/-- The spec-modelled parse entry: empty visited set at the top level. -/
def parseCfgV (ctx : Ctx) (fuel : Nat) (content : Str) (basePath : Str)
    (visited : List Str) (reg : Registry) : Option Registry :=
  runV ctx fuel [Frame.doc (splitLines content) basePath none] visited reg

def noGlobFn : Str → List Str := fun _ => []

def homeU : Str := (r"/home/u").toList

/-- A context with no readable files. -/
def ctx0 : Ctx := ⟨fun _ => none, noGlobFn, homeU⟩

def cfgPathC : Str := (r"/a/config").toList

def incSelfLine : Str := (r"Include /a/config").toList

/-- A context whose only file includes itself. -/
def cycleCtx : Ctx :=
  ⟨fun p => if p = cfgPathC then some incSelfLine else none, noGlobFn, homeU⟩

/-- A context for the include-interleaving scenario: the included file
declares the same alias as the block left open in the primary text. -/
def ctxC1 : Ctx :=
  ⟨fun p =>
    if p = (r"/a/extra").toList then
      some ((r"Host x").toList ++ nlCh :: (r"HostName second").toList)
    else none,
   noGlobFn, homeU⟩

def primC1 : Str :=
  (r"Host x").toList ++ nlCh :: (r"HostName first").toList ++ nlCh ::
    (r"Include /a/extra").toList

/-- A context for two-level nested relative includes, with a decoy file
at the path a top-level-relative resolution would produce. -/
def ctx6 : Ctx :=
  ⟨fun p =>
    if p = (r"/r/sub/mid").toList then some (r"Include deep").toList
    else if p = (r"/r/sub/deep").toList then
      some ((r"Host d").toList ++ nlCh :: (r"HostName dd").toList)
    else if p = (r"/r/deep").toList then some (r"Host wrong").toList
    else none,
   noGlobFn, homeU⟩

/-- A token: a nonempty run of non-whitespace characters, the shape of
aliases and values in the general theorems. -/
def isTok (t : Str) : Bool := !(t.isEmpty) && t.all (fun c => !c.isWhitespace)

theorem isTok_ne_nil {t : Str} (h : isTok t = true) : t ≠ [] := by
  cases t with
  | nil => simp [isTok] at h
  | cons c cs => simp

theorem isTok_not_ws {t : Str} (h : isTok t = true) {c : Char} (hc : c ∈ t) :
    c.isWhitespace = false := by
  simp [isTok, List.all_eq_true] at h
  exact h.2 c hc

theorem isTok_cons {t : Str} (h : isTok t = true) :
    ∃ c cs, t = c :: cs ∧ c.isWhitespace = false := by
  cases t with
  | nil => simp [isTok] at h
  | cons c cs => exact ⟨c, cs, rfl, isTok_not_ws h (by simp)⟩

theorem isTok_tail {c : Char} {cs : Str} (h : isTok (c :: cs) = true) (hcs : cs ≠ []) :
    isTok cs = true := by
  simp [isTok, List.all_eq_true] at h ⊢
  exact ⟨hcs, fun d hd => h.2 d hd⟩

theorem reverse_tok {v : Str} (hv : isTok v = true) :
    ∃ d ds, v.reverse = d :: ds ∧ d.isWhitespace = false := by
  have hne : v.reverse ≠ [] := by
    simpa using isTok_ne_nil hv
  cases hr : v.reverse with
  | nil => exact absurd hr hne
  | cons d ds =>
    refine ⟨d, ds, rfl, isTok_not_ws hv ?_⟩
    have : d ∈ v.reverse := by simp [hr]
    simpa using this

theorem trimL_eq_self {l : Str}
    (h1 : ∃ c cs, l = c :: cs ∧ c.isWhitespace = false)
    (h2 : ∃ d ds, l.reverse = d :: ds ∧ d.isWhitespace = false) :
    trimL l = l := by
  obtain ⟨c, cs, rfl, hc⟩ := h1
  obtain ⟨d, ds, hr, hd⟩ := h2
  unfold trimL
  rw [List.dropWhile_cons, hc]
  simp only [Bool.false_eq_true, if_false]
  rw [hr, List.dropWhile_cons, hd]
  simp only [Bool.false_eq_true, if_false]
  rw [← hr, List.reverse_reverse]

theorem trimL_kv {k v : Str} (m : Str) (hk : isTok k = true) (hv : isTok v = true) :
    trimL (k ++ (m ++ v)) = k ++ (m ++ v) := by
  obtain ⟨c, cs, hkc, hc⟩ := isTok_cons hk
  obtain ⟨d, ds, hr, hd⟩ := reverse_tok hv
  refine trimL_eq_self ⟨c, cs ++ (m ++ v), by rw [hkc]; simp, hc⟩ ⟨d, ds ++ (m.reverse ++ k.reverse), ?_, hd⟩
  simp [List.reverse_append, hr]

theorem splitWSGo_last {v : Str} (hv : isTok v = true) :
    ∀ w, splitWSGo v w = [w.reverse ++ v] := by
  induction v with
  | nil => simp [isTok] at hv
  | cons c cs ih =>
    intro w
    have hc : c.isWhitespace = false := isTok_not_ws hv (by simp)
    rw [splitWSGo]
    simp only [hc, Bool.false_eq_true, if_false]
    cases cs with
    | nil => simp [splitWSGo]
    | cons d ds =>
      rw [ih (isTok_tail hv (by simp))]
      simp

theorem splitWSGo_sep {k : Str} (hk : isTok k = true) :
    ∀ w rest, splitWSGo (k ++ ' ' :: rest) w = (w.reverse ++ k) :: splitWSGo rest [] := by
  induction k with
  | nil => simp [isTok] at hk
  | cons c cs ih =>
    intro w rest
    have hc : c.isWhitespace = false := isTok_not_ws hk (by simp)
    rw [List.cons_append, splitWSGo]
    simp only [hc, Bool.false_eq_true, if_false]
    cases cs with
    | nil =>
      rw [List.nil_append, splitWSGo]
      simp [splitWSGo]
    | cons d ds =>
      rw [ih (isTok_tail hk (by simp))]
      simp

theorem splitWS_two {k v : Str} (hk : isTok k = true) (hv : isTok v = true) :
    splitWS (k ++ ' ' :: v) = [k, v] := by
  unfold splitWS
  rw [splitWSGo_sep hk, splitWSGo_last hv]
  simp

theorem splitWS_three {k t1 t2 : Str} (hk : isTok k = true) (h1 : isTok t1 = true)
    (h2 : isTok t2 = true) :
    splitWS (k ++ ' ' :: (t1 ++ ' ' :: t2)) = [k, t1, t2] := by
  unfold splitWS
  rw [splitWSGo_sep hk, splitWSGo_sep h1, splitWSGo_last h2]
  simp

theorem startsWithL_append (p r : Str) : startsWithL p (p ++ r) = true := by
  induction p with
  | nil => rfl
  | cons c cs ih => simp [startsWithL, ih]

theorem lowerStr_append (a b : Str) : lowerStr (a ++ b) = lowerStr a ++ lowerStr b := by
  simp [lowerStr]

/-- Classification of a Host line with a single-token value. -/
theorem classify_host {v : Str} (hv : isTok v = true) :
    classifyLine ((r"Host").toList ++ ' ' :: v) = .host v := by
  have htok : isTok (r"Host").toList = true := by decide
  have htrim : trimL ((r"Host").toList ++ ' ' :: v) = (r"Host").toList ++ ' ' :: v :=
    trimL_kv [' '] htok hv
  have hsw := splitWS_two htok hv
  simp only [classifyLine, htrim, hsw]
  rfl

/-- Classification of a Host line with two space-separated tokens. -/
theorem classify_host_multi {t1 t2 : Str} (h1 : isTok t1 = true) (h2 : isTok t2 = true) :
    classifyLine ((r"Host").toList ++ ' ' :: (t1 ++ ' ' :: t2)) = .host (t1 ++ ' ' :: t2) := by
  have htok : isTok (r"Host").toList = true := by decide
  have htrim : trimL ((r"Host").toList ++ ' ' :: (t1 ++ ' ' :: t2)) =
      (r"Host").toList ++ ' ' :: (t1 ++ ' ' :: t2) := by
    have h3 := trimL_kv ((' ' :: t1) ++ [' ']) htok h2
    simpa using h3
  have hsw := splitWS_three htok h1 h2
  simp only [classifyLine, htrim, hsw]
  rfl

theorem trimL_tok {v : Str} (hv : isTok v = true) : trimL v = v :=
  trimL_eq_self (isTok_cons hv) (reverse_tok hv)

/-- Classification of a property line with the HostName key. -/
theorem classify_hostname {v : Str} (hv : isTok v = true) :
    classifyLine ((r"HostName").toList ++ ' ' :: v) = .prop (r"hostname").toList v := by
  have htok : isTok (r"HostName").toList = true := by decide
  have htrim : trimL ((r"HostName").toList ++ ' ' :: v) = (r"HostName").toList ++ ' ' :: v :=
    trimL_kv [' '] htok hv
  have hsw := splitWS_two htok hv
  simp only [classifyLine, htrim, hsw]
  show (if v = [] then LineAction.skip
    else LineAction.prop (lowerStr (r"HostName").toList) v) = _
  rw [if_neg (isTok_ne_nil hv)]
  rfl

/-- Classification of a property line with the User key. -/
theorem classify_user {v : Str} (hv : isTok v = true) :
    classifyLine ((r"User").toList ++ ' ' :: v) = .prop (r"user").toList v := by
  have htok : isTok (r"User").toList = true := by decide
  have htrim : trimL ((r"User").toList ++ ' ' :: v) = (r"User").toList ++ ' ' :: v :=
    trimL_kv [' '] htok hv
  have hsw := splitWS_two htok hv
  simp only [classifyLine, htrim, hsw]
  show (if v = [] then LineAction.skip
    else LineAction.prop (lowerStr (r"User").toList) v) = _
  rw [if_neg (isTok_ne_nil hv)]
  rfl

/-- Classification of a property line with the Port key. -/
theorem classify_port {v : Str} (hv : isTok v = true) :
    classifyLine ((r"Port").toList ++ ' ' :: v) = .prop (r"port").toList v := by
  have htok : isTok (r"Port").toList = true := by decide
  have htrim : trimL ((r"Port").toList ++ ' ' :: v) = (r"Port").toList ++ ' ' :: v :=
    trimL_kv [' '] htok hv
  have hsw := splitWS_two htok hv
  simp only [classifyLine, htrim, hsw]
  show (if v = [] then LineAction.skip
    else LineAction.prop (lowerStr (r"Port").toList) v) = _
  rw [if_neg (isTok_ne_nil hv)]
  rfl

/-- Classification of an Include line. -/
theorem classify_incl {p : Str} (hp : isTok p = true) :
    classifyLine ((r"Include").toList ++ ' ' :: p) = .incl p := by
  have htok : isTok (r"Include").toList = true := by decide
  have htrim : trimL ((r"Include").toList ++ ' ' :: p) = (r"Include").toList ++ ' ' :: p :=
    trimL_kv [' '] htok hp
  simp only [classifyLine, htrim]
  show LineAction.incl (trimL p) = LineAction.incl p
  rw [trimL_tok hp]

theorem setProp_hostname (h : SSHHost) (v home : Str) :
    setProp h ['h', 'o', 's', 't', 'n', 'a', 'm', 'e'] v home = { h with hostname := some v } := rfl

theorem setProp_user (h : SSHHost) (v home : Str) :
    setProp h ['u', 's', 'e', 'r'] v home = { h with user := some v } := rfl

theorem setProp_port (h : SSHHost) (v home : Str) :
    setProp h ['p', 'o', 'r', 't'] v home = { h with port := some (parseIntJS v) } := rfl

theorem lookup_setReg_self (reg : Registry) (k : Str) (v : SSHHost) :
    lookupReg (setReg reg k v) k = some v := by
  induction reg with
  | nil => simp [setReg, lookupReg]
  | cons e rest ih =>
    by_cases h : e.1 = k
    · simp [setReg, lookupReg, h]
    · simp [setReg, lookupReg, h, ih]

theorem run_nil (ctx : Ctx) (n : Nat) (reg : Registry) :
    run ctx (n + 1) [] reg = some reg := rfl

theorem run_doc_nil (ctx : Ctx) (n : Nat) (b : Str) (cur : Option SSHHost)
    (stk : List Frame) (reg : Registry) :
    run ctx (n + 1) (Frame.doc [] b cur :: stk) reg = run ctx n stk (commit cur reg) := rfl

theorem run_skip {l : Str} (h : classifyLine l = .skip) (ctx : Ctx) (n : Nat)
    (ls : List Str) (b : Str) (cur : Option SSHHost) (stk : List Frame) (reg : Registry) :
    run ctx (n + 1) (Frame.doc (l :: ls) b cur :: stk) reg =
      run ctx n (Frame.doc ls b cur :: stk) reg := by
  simp only [run, h]

theorem run_host {l v : Str} (h : classifyLine l = .host v) (ctx : Ctx) (n : Nat)
    (ls : List Str) (b : Str) (cur : Option SSHHost) (stk : List Frame) (reg : Registry) :
    run ctx (n + 1) (Frame.doc (l :: ls) b cur :: stk) reg =
      run ctx n (Frame.doc ls b (some { host := v }) :: stk) (commit cur reg) := by
  simp only [run, h]

theorem run_prop {l k v : Str} (h : classifyLine l = .prop k v) (ctx : Ctx) (n : Nat)
    (ls : List Str) (b : Str) (cur : Option SSHHost) (stk : List Frame) (reg : Registry) :
    run ctx (n + 1) (Frame.doc (l :: ls) b cur :: stk) reg =
      run ctx n (Frame.doc ls b (cur.map fun h0 => setProp h0 k v ctx.home) :: stk) reg := by
  simp only [run, h]

theorem run_incl_file {l p content : Str} (h : classifyLine l = .incl p) (ctx : Ctx)
    {b : Str} (hstar : (resolveInclude ctx.home b p).contains '*' = false)
    (hfs : ctx.fs (resolveInclude ctx.home b p) = some content) (n : Nat)
    (ls : List Str) (cur : Option SSHHost) (stk : List Frame) (reg : Registry) :
    run ctx (n + 1) (Frame.doc (l :: ls) b cur :: stk) reg =
      run ctx n (Frame.doc (splitLines content) (resolveInclude ctx.home b p) none ::
        Frame.doc ls b cur :: stk) reg := by
  simp only [run, h, hstar, hfs, Bool.false_eq_true, if_false]

theorem run_incl_miss {l p : Str} (h : classifyLine l = .incl p) (ctx : Ctx)
    {b : Str} (hstar : (resolveInclude ctx.home b p).contains '*' = false)
    (hfs : ctx.fs (resolveInclude ctx.home b p) = none) (n : Nat)
    (ls : List Str) (cur : Option SSHHost) (stk : List Frame) (reg : Registry) :
    run ctx (n + 1) (Frame.doc (l :: ls) b cur :: stk) reg =
      run ctx n (Frame.doc ls b cur :: stk) reg := by
  simp only [run, h, hstar, hfs, Bool.false_eq_true, if_false]

theorem splitLinesGo_append {l : Str} (hl : ∀ c ∈ l, ¬ c = nlCh) (r : Str) :
    ∀ cur, splitLinesGo (l ++ nlCh :: r) cur = (cur.reverse ++ l) :: splitLinesGo r [] := by
  induction l with
  | nil =>
    intro cur
    simp [splitLinesGo]
  | cons c cs ih =>
    intro cur
    have hc : ¬ c = nlCh := hl c (by simp)
    rw [List.cons_append, splitLinesGo, if_neg hc, ih (fun d hd => hl d (by simp [hd]))]
    simp

theorem splitLinesGo_noNL {l : Str} (hl : ∀ c ∈ l, ¬ c = nlCh) :
    ∀ cur, splitLinesGo l cur = [cur.reverse ++ l] := by
  induction l with
  | nil => intro cur; simp [splitLinesGo]
  | cons c cs ih =>
    intro cur
    have hc : ¬ c = nlCh := hl c (by simp)
    rw [splitLinesGo, if_neg hc, ih (fun d hd => hl d (by simp [hd]))]
    simp

theorem splitLines_cons {l : Str} (hl : ∀ c ∈ l, ¬ c = nlCh) (r : Str) :
    splitLines (l ++ nlCh :: r) = l :: splitLines r := by
  unfold splitLines
  rw [splitLinesGo_append hl r []]
  simp

theorem splitLines_single {l : Str} (hl : ∀ c ∈ l, ¬ c = nlCh) :
    splitLines l = [l] := by
  unfold splitLines
  rw [splitLinesGo_noNL hl []]
  simp

theorem noNL_of_tok {t : Str} (ht : isTok t = true) : ∀ c ∈ t, ¬ c = nlCh := by
  intro c hc he
  have hw := isTok_not_ws ht hc
  rw [he] at hw
  exact absurd hw (by decide)

theorem noNL_kv {k v : Str} (hk : isTok k = true) (hv : isTok v = true) :
    ∀ c ∈ k ++ ' ' :: v, ¬ c = nlCh := by
  intro c hc
  rcases (by simpa using hc : c ∈ k ∨ c = ' ' ∨ c ∈ v) with h | h | h
  · exact noNL_of_tok hk c h
  · rw [h]; decide
  · exact noNL_of_tok hv c h

theorem charToSix_sixAux : ∀ i : Fin 64, charToSix (sixAux i.val) = i.val := by decide

theorem charToSix_sixToChar {m : Nat} (hm : m < 64) : charToSix (sixToChar m) = m := by
  have h := charToSix_sixAux ⟨m, hm⟩
  simpa [sixToChar, Nat.mod_eq_of_lt hm] using h

theorem sixAux_ne_pad : ∀ i : Fin 64, sixAux i.val ≠ padChar := by decide

theorem sixToChar_ne_pad (n : Nat) : sixToChar n ≠ padChar := by
  have h := sixAux_ne_pad ⟨n % 64, Nat.mod_lt n (by omega)⟩
  simpa [sixToChar] using h

theorem b64_chunk1 {b1 : Nat} (h1 : b1 < 256) :
    b64decode [sixToChar (b1 / 4), sixToChar (b1 % 4 * 16), padChar, padChar] = [b1] := by
  rw [b64decode]
  rw [if_pos rfl]
  rw [charToSix_sixToChar (by omega), charToSix_sixToChar (by omega)]
  congr 1
  omega

theorem b64_chunk2 {b1 b2 : Nat} (h1 : b1 < 256) (h2 : b2 < 256) :
    b64decode [sixToChar (b1 / 4), sixToChar (b1 % 4 * 16 + b2 / 16),
      sixToChar (b2 % 16 * 4), padChar] = [b1, b2] := by
  rw [b64decode]
  rw [if_neg (sixToChar_ne_pad _), if_pos rfl]
  rw [charToSix_sixToChar (by omega), charToSix_sixToChar (by omega),
    charToSix_sixToChar (by omega)]
  congr 1
  · omega
  · congr 1
    omega

theorem b64_chunk3 {b1 b2 b3 : Nat} (h1 : b1 < 256) (h2 : b2 < 256) (h3 : b3 < 256)
    (rest : List Char) :
    b64decode (sixToChar (b1 / 4) :: sixToChar (b1 % 4 * 16 + b2 / 16) ::
      sixToChar (b2 % 16 * 4 + b3 / 64) :: sixToChar (b3 % 64) :: rest) =
      b1 :: b2 :: b3 :: b64decode rest := by
  rw [b64decode]
  rw [if_neg (sixToChar_ne_pad _), if_neg (sixToChar_ne_pad _)]
  rw [charToSix_sixToChar (by omega), charToSix_sixToChar (by omega),
    charToSix_sixToChar (by omega), charToSix_sixToChar (by omega)]
  congr 1
  · omega
  · congr 1
    · omega
    · congr 1
      omega

theorem b64_roundtrip : ∀ s : List Nat, (∀ b ∈ s, b < 256) → b64decode (b64encode s) = s := by
  intro s
  induction s using b64encode.induct with
  | case1 => intro _; rfl
  | case2 b1 =>
    intro hb
    rw [b64encode, b64_chunk1 (hb b1 (by simp))]
  | case3 b1 b2 =>
    intro hb
    rw [b64encode, b64_chunk2 (hb b1 (by simp)) (hb b2 (by simp))]
  | case4 b1 b2 b3 rest ih =>
    intro hb
    rw [b64encode, b64_chunk3 (hb b1 (by simp)) (hb b2 (by simp)) (hb b3 (by simp))]
    rw [ih (fun b hbm => hb b (by simp [hbm]))]

theorem sixAux_b64char : ∀ i : Fin 64, isB64Char (sixAux i.val) = true := by decide

theorem sixToChar_b64char (n : Nat) : isB64Char (sixToChar n) = true := by
  have h := sixAux_b64char ⟨n % 64, Nat.mod_lt n (by omega)⟩
  simpa [sixToChar] using h

theorem b64encode_chars : ∀ s : List Nat, ∀ c ∈ b64encode s, isB64Char c = true := by
  intro s
  induction s using b64encode.induct with
  | case1 => intro c hc; simp [b64encode] at hc
  | case2 b1 =>
    intro c hc
    simp only [b64encode, List.mem_cons, List.not_mem_nil, or_false] at hc
    rcases hc with h | h | h | h <;> rw [h] <;>
      first | exact sixToChar_b64char _ | decide
  | case3 b1 b2 =>
    intro c hc
    simp only [b64encode, List.mem_cons, List.not_mem_nil, or_false] at hc
    rcases hc with h | h | h | h <;> rw [h] <;>
      first | exact sixToChar_b64char _ | decide
  | case4 b1 b2 b3 rest ih =>
    intro c hc
    simp only [b64encode, List.mem_cons] at hc
    rcases hc with h | h | h | h | h
    · rw [h]; exact sixToChar_b64char _
    · rw [h]; exact sixToChar_b64char _
    · rw [h]; exact sixToChar_b64char _
    · rw [h]; exact sixToChar_b64char _
    · exact ih c h

theorem isB64Char_not_squote {c : Char} (h : isB64Char c = true) : c ≠ squote := by
  intro he
  rw [he] at h
  exact absurd h (by decide)

theorem isB64Char_not_ws {c : Char} (h : isB64Char c = true) : c.isWhitespace = false := by
  cases hws : c.isWhitespace
  · rfl
  · exfalso
    simp [Char.isWhitespace] at hws
    rcases hws with ((rfl | rfl) | rfl) | rfl <;> exact absurd h (by decide)

theorem char_toNat_lt (c : Char) : c.toNat < 1114112 := by
  have hv := c.valid
  have he : c.toNat = c.val.toNat := rfl
  rcases hv with h | h <;> omega

theorem utf8Char_lt (c : Char) : ∀ b ∈ utf8Char c, b < 256 := by
  intro b hb
  have hv := char_toNat_lt c
  unfold utf8Char at hb
  by_cases h1 : c.toNat < 128
  · simp [h1] at hb; omega
  · by_cases h2 : c.toNat < 2048
    · simp [h1, h2] at hb
      rcases hb with h | h <;> omega
    · by_cases h3 : c.toNat < 65536
      · simp [h1, h2, h3] at hb
        rcases hb with h | h | h <;> omega
      · simp [h1, h2, h3] at hb
        rcases hb with h | h | h | h <;> omega

theorem utf8Str_lt (s : Str) : ∀ b ∈ utf8Str s, b < 256 := by
  induction s with
  | nil => intro b hb; simp [utf8Str] at hb
  | cons c cs ih =>
    intro b hb
    simp only [utf8Str, List.mem_append] at hb
    rcases hb with h | h
    · exact utf8Char_lt c b h
    · exact ih b h

/-- After clearTimeout has run and the promise is settled, no later
event changes the kill flag or the settlement. -/
theorem runEvents_stable_cleared (host command : Str) (useBase64 : Bool) (timeout : Nat) :
    ∀ (tr : List PEvent) (s : TState) (res : Except McpErr CmdResult),
      s.cleared = true → s.settled = some res →
      (runEvents host command useBase64 timeout s tr).killed = s.killed ∧
      (runEvents host command useBase64 timeout s tr).settled = some res := by
  intro tr
  induction tr with
  | nil => intro s res hc hs; exact ⟨rfl, hs⟩
  | cons e es ih =>
    intro s res hc hs
    cases e with
    | close code so se =>
      have := ih ⟨true, s.killed, someFirst s.settled
        (.ok (commandCloseResult host command useBase64 code so se))⟩ res rfl
        (by rw [hs]; rfl)
      simpa [runEvents, stepEvent] using this
    | fire =>
      have hstep : stepEvent host command useBase64 timeout s .fire = s := by
        simp [stepEvent, hc]
      rw [runEvents, hstep]
      exact ih s res hc hs
    | spawnErr m =>
      have := ih ⟨true, s.killed, someFirst s.settled
        (.error (spawnFailErr (r"SSH execution").toList m))⟩ res rfl
        (by rw [hs]; rfl)
      simpa [runEvents, stepEvent] using this

/-- After the timer fired, killed and rejected, no later event changes
the kill flag or the settlement. -/
theorem runEvents_stable_fired (host command : Str) (useBase64 : Bool) (timeout : Nat) :
    ∀ (tr : List PEvent) (s : TState) (res : Except McpErr CmdResult),
      s.killed = true → s.settled = some res →
      (runEvents host command useBase64 timeout s tr).killed = true ∧
      (runEvents host command useBase64 timeout s tr).settled = some res := by
  intro tr
  induction tr with
  | nil => intro s res hk hs; exact ⟨hk, hs⟩
  | cons e es ih =>
    intro s res hk hs
    cases e with
    | close code so se =>
      have := ih ⟨true, s.killed, someFirst s.settled
        (.ok (commandCloseResult host command useBase64 code so se))⟩ res hk
        (by rw [hs]; rfl)
      simpa [runEvents, stepEvent] using this
    | fire =>
      by_cases hc : s.cleared = true
      · have hstep : stepEvent host command useBase64 timeout s .fire = s := by
          simp [stepEvent, hc]
        rw [runEvents, hstep]
        exact ih s res hk hs
      · have hstep : stepEvent host command useBase64 timeout s .fire =
            ⟨s.cleared, true, someFirst s.settled
              (.error (timeoutErr (r"Command").toList timeout))⟩ := by
          simp [stepEvent, hc]
        rw [runEvents, hstep]
        exact ih _ res rfl (by rw [hs]; rfl)
    | spawnErr m =>
      have := ih ⟨true, s.killed, someFirst s.settled
        (.error (spawnFailErr (r"SSH execution").toList m))⟩ res hk
        (by rw [hs]; rfl)
      simpa [runEvents, stepEvent] using this

theorem cycle_run_none : ∀ (n : Nat) (stk : List Frame) (reg : Registry),
    run cycleCtx n (Frame.doc [incSelfLine] cfgPathC none :: stk) reg = none := by
  intro n
  induction n with
  | zero => intro stk reg; rfl
  | succ n ih =>
    intro stk reg
    have hcl : classifyLine incSelfLine = .incl cfgPathC := by decide
    have hstar : (resolveInclude cycleCtx.home cfgPathC cfgPathC).contains '*' = false := by
      decide
    have hfs : cycleCtx.fs (resolveInclude cycleCtx.home cfgPathC cfgPathC) =
        some incSelfLine := by decide
    rw [run_incl_file hcl cycleCtx hstar hfs]
    exact ih (Frame.doc [] cfgPathC none :: stk) reg

/-- C2: the source include handling has no visited set, so a
configuration whose Include resolves to the file itself makes the parse
recurse without end: no step budget suffices. The spec-prescribed
visited-set parse terminates on the same input by skipping the repeated
path. -/
theorem parse_self_include_cycle :
    (∀ (n : Nat) (reg : Registry), parseCfg cycleCtx n incSelfLine cfgPathC reg = none) ∧
    parseCfgV cycleCtx 12 incSelfLine cfgPathC [] [] = some [] := by
  constructor
  · intro n reg
    exact cycle_run_none n [] reg
  · decide

/-- C3: the encoded execution mode is lossless — decoding the base64
text produced by the encoder returns exactly the original bytes, both
for arbitrary byte payloads and for the UTF-8 bytes of any command or
script string fed to the remote interpreter. -/
theorem encoded_mode_lossless :
    (∀ bs : List Nat, (∀ b ∈ bs, b < 256) → b64decode (b64encode bs) = bs) ∧
    (∀ payload : Str, b64decode (b64encode (utf8Str payload)) = utf8Str payload) :=
  ⟨b64_roundtrip, fun payload => b64_roundtrip _ (utf8Str_lt payload)⟩

theorem encoded_mode_lossless_witness :
    b64decode (b64encode [104, 101, 108, 108, 111]) = [104, 101, 108, 108, 111] :=
  encoded_mode_lossless.1 [104, 101, 108, 108, 111] (by decide)

/-- C10: every character of the encoded payload interpolated into the
single-quoted echo of the remote pipeline lies in the base64 alphabet,
and in particular is never a single quote nor whitespace, so the quoted
embedding cannot be escaped by payload content. -/
theorem encoded_payload_shell_safe :
    ∀ (payload : Str) (c : Char), c ∈ b64encode (utf8Str payload) →
      isB64Char c = true ∧ c ≠ squote ∧ c.isWhitespace = false := by
  intro payload c hc
  have h := b64encode_chars (utf8Str payload) c hc
  exact ⟨h, isB64Char_not_squote h, isB64Char_not_ws h⟩

theorem encoded_payload_shell_safe_witness :
    isB64Char 'a' = true ∧ 'a' ≠ squote ∧ ('a').isWhitespace = false :=
  encoded_payload_shell_safe ['h'] 'a' (by decide)

/-- C4: every operation taking a host field fails with the
InvalidRequest host-not-found error when the alias is not in the
registry, before any process invocation is produced. -/
theorem unknown_host_invalid_request (reg : Registry)
    (host command script interp localPath remotePath : Str) (useBase64 : Bool)
    (h : lookupReg reg host = none) :
    (hostNotFound host).code = .invalidRequest ∧
    executeCommandSpawn reg host command useBase64 = .error (hostNotFound host) ∧
    executeScriptSpawn reg host script interp = .error (hostNotFound host) ∧
    getHostInfoModel reg host = .error (hostNotFound host) ∧
    uploadFileCmd reg host localPath remotePath = .error (hostNotFound host) ∧
    downloadFileCmd reg host remotePath localPath = .error (hostNotFound host) := by
  refine ⟨rfl, ?_, ?_, ?_, ?_, ?_⟩ <;>
    simp [executeCommandSpawn, executeScriptSpawn, getHostInfoModel, uploadFileCmd,
      downloadFileCmd, h]

theorem unknown_host_invalid_request_witness :
    (hostNotFound (r"nope").toList).code = .invalidRequest ∧
    executeCommandSpawn [] (r"nope").toList (r"ls").toList false =
      .error (hostNotFound (r"nope").toList) ∧
    executeScriptSpawn [] (r"nope").toList (r"ls").toList (r"bash").toList =
      .error (hostNotFound (r"nope").toList) ∧
    getHostInfoModel [] (r"nope").toList = .error (hostNotFound (r"nope").toList) ∧
    uploadFileCmd [] (r"nope").toList (r"/l").toList (r"/r").toList =
      .error (hostNotFound (r"nope").toList) ∧
    downloadFileCmd [] (r"nope").toList (r"/r").toList (r"/l").toList =
      .error (hostNotFound (r"nope").toList) :=
  unknown_host_invalid_request [] (r"nope").toList (r"ls").toList (r"ls").toList
    (r"bash").toList (r"/l").toList (r"/r").toList false rfl

/-- C5: a nonzero exit of a command or script settles the call as a
normal result carrying success false and the exit code, while a file
transfer whose copy command exits nonzero or cannot be run settles as
an execution-failure error, never as a success-false result. -/
theorem nonzero_exit_semantics :
    (∀ (host command so se : Str) (useBase64 : Bool) (timeout : Nat) (c : Int), c ≠ 0 →
      (runEvents host command useBase64 timeout initTState [.close (some c) so se]).settled =
        some (.ok (commandCloseResult host command useBase64 (some c) so se)) ∧
      (commandCloseResult host command useBase64 (some c) so se).success = false ∧
      (commandCloseResult host command useBase64 (some c) so se).exitCode = some c) ∧
    (∀ (host script interp so se : Str) (timeout : Nat) (c : Int), c ≠ 0 →
      executeScriptSettle host script interp timeout (.close (some c) so se) =
        .ok (scriptCloseResult host script interp (some c) so se) ∧
      (scriptCloseResult host script interp (some c) so se).success = false ∧
      (scriptCloseResult host script interp (some c) so se).exitCode = some c) ∧
    (∀ (host lp rp so se : Str) (c : Int), c ≠ 0 →
      uploadFileSettle host lp rp (.exited c so se) =
        .error ⟨.internalError,
          (r"SCP upload failed: ").toList ++ (r"Command failed").toList⟩ ∧
      downloadFileSettle host rp lp (.exited c so se) =
        .error ⟨.internalError,
          (r"SCP download failed: ").toList ++ (r"Command failed").toList⟩) ∧
    (∀ (host lp rp m : Str),
      uploadFileSettle host lp rp (.spawnFailed m) =
        .error ⟨.internalError, (r"SCP upload failed: ").toList ++ m⟩ ∧
      downloadFileSettle host rp lp (.spawnFailed m) =
        .error ⟨.internalError, (r"SCP download failed: ").toList ++ m⟩) := by
  refine ⟨?_, ?_, ?_, ?_⟩
  · intro host command so se useBase64 timeout c hc
    refine ⟨rfl, ?_, rfl⟩
    simp [commandCloseResult, hc]
  · intro host script interp so se timeout c hc
    refine ⟨rfl, ?_, rfl⟩
    simp [scriptCloseResult, hc]
  · intro host lp rp so se c hc
    constructor <;> simp [uploadFileSettle, downloadFileSettle, hc]
  · intro host lp rp m
    exact ⟨rfl, rfl⟩

theorem nonzero_exit_semantics_witness :
    (runEvents (r"h").toList (r"ls").toList false 30 initTState
        [.close (some 1) [] []]).settled =
      some (.ok (commandCloseResult (r"h").toList (r"ls").toList false (some 1) [] [])) ∧
    (commandCloseResult (r"h").toList (r"ls").toList false (some 1) [] []).success = false ∧
    (commandCloseResult (r"h").toList (r"ls").toList false (some 1) [] []).exitCode =
      some 1 :=
  nonzero_exit_semantics.1 (r"h").toList (r"ls").toList [] [] false 30 1 (by decide)

/-- C8: with the handlers of executeCommand, whichever of the close
event and the timer expiry comes first determines the settlement, which
later events never change: a close first disarms the timer, settles the
promise with the normal result and no termination signal is ever sent
afterwards; an expiry first sends the termination signal and settles
the promise with the timeout error. -/
theorem timeout_settles_once (host command : Str) (useBase64 : Bool) (timeout : Nat)
    (code : Option Int) (so se : Str) (tr : List PEvent) :
    (runEvents host command useBase64 timeout initTState
        (.close code so se :: tr)).killed = false ∧
    (runEvents host command useBase64 timeout initTState
        (.close code so se :: tr)).settled =
      some (.ok (commandCloseResult host command useBase64 code so se)) ∧
    (runEvents host command useBase64 timeout initTState (.fire :: tr)).killed = true ∧
    (runEvents host command useBase64 timeout initTState (.fire :: tr)).settled =
      some (.error (timeoutErr (r"Command").toList timeout)) := by
  have h1 := runEvents_stable_cleared host command useBase64 timeout tr
    ⟨true, false, some (.ok (commandCloseResult host command useBase64 code so se))⟩
    (.ok (commandCloseResult host command useBase64 code so se)) rfl rfl
  have h2 := runEvents_stable_fired host command useBase64 timeout tr
    ⟨false, true, some (.error (timeoutErr (r"Command").toList timeout))⟩
    (.error (timeoutErr (r"Command").toList timeout)) rfl rfl
  exact ⟨h1.1, h1.2, h2.1, h2.2⟩

theorem noNL_kv3 {k t1 t2 : Str} (hk : isTok k = true) (h1 : isTok t1 = true)
    (h2 : isTok t2 = true) : ∀ c ∈ k ++ ' ' :: (t1 ++ ' ' :: t2), ¬ c = nlCh := by
  intro c hc
  rcases (by simpa using hc : c ∈ k ∨ c = ' ' ∨ c ∈ t1 ∨ c = ' ' ∨ c ∈ t2) with
    h | h | h | h | h
  · exact noNL_of_tok hk c h
  · rw [h]; decide
  · exact noNL_of_tok h1 c h
  · rw [h]; decide
  · exact noNL_of_tok h2 c h

/-- C1 counterexample: with the block for alias x still open in the
primary text, an Include whose file declares x later is processed
first; the primary block commits afterwards and wins, so the registry
holds the earlier-declared record, not the later-declared one. -/
theorem duplicate_alias_counterexample :
    lookupAfter (parseCfg ctxC1 30 primC1 cfgPathC []) (r"x").toList =
      some { host := (r"x").toList, hostname := some (r"first").toList } ∧
    (some { host := (r"x").toList, hostname := some (r"first").toList } : Option SSHHost) ≠
      some { host := (r"x").toList, hostname := some (r"second").toList } := by
  constructor
  · decide
  · decide

/-- C1 amended: duplicate aliases resolve by commit order, and a commit
replaces the registry entry wholly. Whatever record any registry held
for the alias, a later-committed block leaves exactly its own complete
record (first conjunct); two completed blocks in one document commit in
declaration order, so there the later-declared block wins with no field
carried over from the earlier one (second conjunct). Only a block left
open across an Include commits after the included declarations, as the
counterexample shows. -/
theorem duplicate_alias_last_commit_wins :
    (∀ (ctx : Ctx) (n : Nat) (base : Str) (reg : Registry) (a h u : Str),
      isTok a = true → isTok h = true → isTok u = true →
      lookupAfter (parseCfg ctx (n + 5)
        (((r"Host").toList ++ ' ' :: a) ++ nlCh ::
          (((r"HostName").toList ++ ' ' :: h) ++ nlCh ::
            ((r"User").toList ++ ' ' :: u))) base reg) a =
        some { host := a, hostname := some h, user := some u }) ∧
    (∀ (ctx : Ctx) (n : Nat) (base : Str) (reg : Registry) (a u1 h2 : Str),
      isTok a = true → isTok u1 = true → isTok h2 = true →
      lookupAfter (parseCfg ctx (n + 6)
        (((r"Host").toList ++ ' ' :: a) ++ nlCh ::
          (((r"User").toList ++ ' ' :: u1) ++ nlCh ::
            (((r"Host").toList ++ ' ' :: a) ++ nlCh ::
              ((r"HostName").toList ++ ' ' :: h2)))) base reg) a =
        some { host := a, hostname := some h2 }) := by
  have hkH : isTok (r"Host").toList = true := by decide
  have hkHN : isTok (r"HostName").toList = true := by decide
  have hkU : isTok (r"User").toList = true := by decide
  constructor
  · intro ctx n base reg a h u ha hh hu
    unfold parseCfg
    rw [splitLines_cons (noNL_kv hkH ha), splitLines_cons (noNL_kv hkHN hh),
      splitLines_single (noNL_kv hkU hu)]
    rw [run_host (classify_host ha), run_prop (classify_hostname hh),
      run_prop (classify_user hu), run_doc_nil, run_nil]
    simp [lookupAfter, commit, Option.map, setProp_hostname, setProp_user,
      lookup_setReg_self]
  · intro ctx n base reg a u1 h2 ha hu1 hh2
    unfold parseCfg
    rw [splitLines_cons (noNL_kv hkH ha), splitLines_cons (noNL_kv hkU hu1),
      splitLines_cons (noNL_kv hkH ha), splitLines_single (noNL_kv hkHN hh2)]
    rw [run_host (classify_host ha), run_prop (classify_user hu1),
      run_host (classify_host ha), run_prop (classify_hostname hh2), run_doc_nil, run_nil]
    simp [lookupAfter, commit, Option.map, setProp_user, setProp_hostname,
      lookup_setReg_self]

theorem duplicate_alias_last_commit_wins_witness :
    lookupAfter (parseCfg ctx0 5
      (((r"Host").toList ++ ' ' :: (r"x").toList) ++ nlCh ::
        (((r"HostName").toList ++ ' ' :: (r"n2").toList) ++ nlCh ::
          ((r"User").toList ++ ' ' :: (r"u2").toList))) cfgPathC
      [((r"x").toList,
        { host := (r"x").toList, hostname := some (r"old").toList,
            user := some (r"uold").toList, port := some (some 7),
            identityFile := some (r"/id").toList, proxyJump := some (r"p").toList,
            extra := [((r"k").toList, (r"v").toList)] })]) (r"x").toList =
      some { host := (r"x").toList, hostname := some (r"n2").toList,
              user := some (r"u2").toList } :=
  duplicate_alias_last_commit_wins.1 ctx0 0 cfgPathC
    [((r"x").toList,
      { host := (r"x").toList, hostname := some (r"old").toList,
          user := some (r"uold").toList, port := some (some 7),
          identityFile := some (r"/id").toList, proxyJump := some (r"p").toList,
          extra := [((r"k").toList, (r"v").toList)] })]
    (r"x").toList (r"n2").toList (r"u2").toList (by decide) (by decide) (by decide)

/-- C9 counterexample: a Host line with two space-separated tokens
registers the joined value as the only alias; lookup by the first token
fails rather than returning the record. -/
theorem multi_token_host_counterexample :
    lookupAfter (parseCfg ctx0 10 (r"Host alpha beta").toList cfgPathC [])
        (r"alpha").toList = none ∧
    lookupAfter (parseCfg ctx0 10 (r"Host alpha beta").toList cfgPathC [])
        (r"beta").toList = none ∧
    lookupAfter (parseCfg ctx0 10 (r"Host alpha beta").toList cfgPathC [])
        (r"alpha beta").toList = some { host := (r"alpha beta").toList } := by
  refine ⟨by decide, by decide, by decide⟩

/-- C9 amended: a multi-token Host value is registered under the entire
space-joined value as one alias; lookup by the first token alone and by
any later token fails, and no other alias is registered. -/
theorem multi_token_host_full_value_alias :
    ∀ (ctx : Ctx) (n : Nat) (base t1 t2 : Str), isTok t1 = true → isTok t2 = true →
      parseCfg ctx (n + 3) ((r"Host").toList ++ ' ' :: (t1 ++ ' ' :: t2)) base [] =
        some [(t1 ++ ' ' :: t2, { host := t1 ++ ' ' :: t2 })] ∧
      lookupAfter (parseCfg ctx (n + 3)
        ((r"Host").toList ++ ' ' :: (t1 ++ ' ' :: t2)) base []) t1 = none ∧
      lookupAfter (parseCfg ctx (n + 3)
        ((r"Host").toList ++ ' ' :: (t1 ++ ' ' :: t2)) base []) t2 = none := by
  intro ctx n base t1 t2 h1 h2
  have hkH : isTok (r"Host").toList = true := by decide
  have hne1 : ¬ t1 ++ ' ' :: t2 = t1 := by
    intro he
    have hl := congrArg List.length he
    simp at hl
  have hne2 : ¬ t1 ++ ' ' :: t2 = t2 := by
    intro he
    have hl := congrArg List.length he
    have hp : 0 < t1.length := List.length_pos.mpr (isTok_ne_nil h1)
    simp at hl
    omega
  have hrun : parseCfg ctx (n + 3) ((r"Host").toList ++ ' ' :: (t1 ++ ' ' :: t2)) base [] =
      some [(t1 ++ ' ' :: t2, { host := t1 ++ ' ' :: t2 })] := by
    unfold parseCfg
    rw [splitLines_single (noNL_kv3 hkH h1 h2)]
    rw [run_host (classify_host_multi h1 h2), run_doc_nil, run_nil]
    simp [commit, setReg]
  refine ⟨hrun, ?_, ?_⟩ <;> rw [hrun] <;> simp [lookupAfter, lookupReg, hne1, hne2]

theorem multi_token_host_full_value_alias_witness :
    parseCfg ctx0 3 ((r"Host").toList ++ ' ' :: ((r"alpha").toList ++ ' ' :: (r"beta").toList))
        cfgPathC [] =
      some [((r"alpha").toList ++ ' ' :: (r"beta").toList,
        { host := (r"alpha").toList ++ ' ' :: (r"beta").toList })] ∧
    lookupAfter (parseCfg ctx0 3
      ((r"Host").toList ++ ' ' :: ((r"alpha").toList ++ ' ' :: (r"beta").toList))
      cfgPathC []) (r"alpha").toList = none ∧
    lookupAfter (parseCfg ctx0 3
      ((r"Host").toList ++ ' ' :: ((r"alpha").toList ++ ' ' :: (r"beta").toList))
      cfgPathC []) (r"beta").toList = none :=
  multi_token_host_full_value_alias ctx0 0 cfgPathC (r"alpha").toList (r"beta").toList
    (by decide) (by decide)

/-- C7 counterexample: a Port line whose value has no numeric prefix
leaves the committed record with its port property present and holding
the NaN marker, which is not the record a block with no Port line
produces. -/
theorem port_nan_counterexample :
    lookupAfter (parseCfg ctx0 10 ((r"Host x").toList ++ nlCh :: (r"Port abc").toList)
        cfgPathC []) (r"x").toList =
      some { host := (r"x").toList, port := some none } ∧
    lookupAfter (parseCfg ctx0 10 (r"Host x").toList cfgPathC []) (r"x").toList =
      some { host := (r"x").toList } ∧
    (some { host := (r"x").toList, port := some none } : Option SSHHost) ≠
      some { host := (r"x").toList } := by
  refine ⟨by decide, by decide, by decide⟩

/-- C7 amended: a Port value on which parseInt finds no digit stores
the NaN marker in the port property — present, not absent — while the
rest of the block parses unchanged, and the stored marker presents as
the default 22 wherever the falsy-port default applies. -/
theorem port_nonnumeric_stored_nan :
    ∀ (ctx : Ctx) (n : Nat) (base : Str) (reg : Registry) (a v h : Str),
      isTok a = true → isTok v = true → isTok h = true → parseIntJS v = none →
      lookupAfter (parseCfg ctx (n + 5)
        (((r"Host").toList ++ ' ' :: a) ++ nlCh ::
          (((r"Port").toList ++ ' ' :: v) ++ nlCh ::
            ((r"HostName").toList ++ ' ' :: h))) base reg) a =
        some { host := a, hostname := some h, port := some none } ∧
      effectivePort (some none) = 22 := by
  intro ctx n base reg a v h ha hv hh hnan
  have hkH : isTok (r"Host").toList = true := by decide
  have hkP : isTok (r"Port").toList = true := by decide
  have hkHN : isTok (r"HostName").toList = true := by decide
  refine ⟨?_, rfl⟩
  unfold parseCfg
  rw [splitLines_cons (noNL_kv hkH ha), splitLines_cons (noNL_kv hkP hv),
    splitLines_single (noNL_kv hkHN hh)]
  rw [run_host (classify_host ha), run_prop (classify_port hv),
    run_prop (classify_hostname hh), run_doc_nil, run_nil]
  simp [lookupAfter, commit, Option.map, setProp_port, setProp_hostname, hnan,
    lookup_setReg_self]

theorem port_nonnumeric_stored_nan_witness :
    lookupAfter (parseCfg ctx0 5
      (((r"Host").toList ++ ' ' :: (r"x").toList) ++ nlCh ::
        (((r"Port").toList ++ ' ' :: (r"abc").toList) ++ nlCh ::
          ((r"HostName").toList ++ ' ' :: (r"n").toList))) cfgPathC []) (r"x").toList =
      some { host := (r"x").toList, hostname := some (r"n").toList, port := some none } ∧
    effectivePort (some none) = 22 :=
  port_nonnumeric_stored_nan ctx0 0 cfgPathC [] (r"x").toList (r"abc").toList
    (r"n").toList (by decide) (by decide) (by decide) (by decide)

/-- C6: an Include with a relative path resolves against the directory
of the file being parsed (the base path joined below its parent), and
the included file is parsed with the resolved path as its own base, so
a relative include nested two levels deep resolves against the middle
file, as the concrete scenario with a decoy at the top-level-relative
path confirms. -/
theorem include_relative_resolution :
    (∀ (ctx : Ctx) (n : Nat) (l p content : Str) (ls : List Str) (b : Str)
      (cur : Option SSHHost) (stk : List Frame) (reg : Registry),
      classifyLine l = .incl p →
      startsWithL ['/'] p = false →
      (resolveInclude ctx.home b p).contains '*' = false →
      ctx.fs (resolveInclude ctx.home b p) = some content →
      run ctx (n + 1) (Frame.doc (l :: ls) b cur :: stk) reg =
        run ctx n (Frame.doc (splitLines content) (resolveInclude ctx.home b p) none ::
          Frame.doc ls b cur :: stk) reg ∧
      resolveInclude ctx.home b p =
        replaceFirst (pathJoin (pathJoin b ['.', '.']) p) ['~'] ctx.home) ∧
    lookupAfter (parseCfg ctx6 40 (r"Include sub/mid").toList (r"/r/main").toList [])
        (r"d").toList =
      some { host := (r"d").toList, hostname := some (r"dd").toList } ∧
    lookupAfter (parseCfg ctx6 40 (r"Include sub/mid").toList (r"/r/main").toList [])
        (r"wrong").toList = none := by
  refine ⟨?_, by decide, by decide⟩
  intro ctx n l p content ls b cur stk reg hcl hrel hstar hfs
  refine ⟨run_incl_file hcl ctx hstar hfs n ls cur stk reg, ?_⟩
  simp [resolveInclude, hrel]

theorem include_relative_resolution_witness :
    run ctx6 (5 + 1)
        [Frame.doc [(r"Include deep").toList] (r"/r/sub/mid").toList none] [] =
      run ctx6 5
        (Frame.doc (splitLines ((r"Host d").toList ++ nlCh :: (r"HostName dd").toList))
            (resolveInclude ctx6.home (r"/r/sub/mid").toList (r"deep").toList) none ::
          Frame.doc [] (r"/r/sub/mid").toList none :: []) [] ∧
    resolveInclude ctx6.home (r"/r/sub/mid").toList (r"deep").toList =
      replaceFirst (pathJoin (pathJoin (r"/r/sub/mid").toList ['.', '.'])
        (r"deep").toList) ['~'] ctx6.home :=
  include_relative_resolution.1 ctx6 5 (r"Include deep").toList (r"deep").toList
    ((r"Host d").toList ++ nlCh :: (r"HostName dd").toList) [] (r"/r/sub/mid").toList
    none [] [] (by decide) (by decide) (by decide) (by decide)
